import Mathlib

/-!
Verification of the music_production_project_manager core against its
specification.

The folder-level logic (`FileList` in `folder_handler.py`) is embedded
directly from the source.  The per-file logic (`AudioFile` in
`audio_file_handler.py`) is not part of the shipped sources; its behaviour is
modelled from the specification and from the shipped test-suite
(`tests/test_audio_file_handler.py`), and every such definition is marked
`Modelled from the spec:` in its doc string.

Conventions of the embedding:
* filenames are `String`s, and character-level work is done on `String.data`
  (`List Char`);
* sample data of one decoded file is channel-major, `List (List Int)`;
* the filesystem is an association list from path to decoded data;
* Python's `str(i)` for a natural number is `pyStr`;
* Python's string comparison (used by `sorted`) is `lexLe` on `List Char`.
-/

namespace MPPM

/-! ### Decimal rendering of naturals (Python `str(i)`) -/

/-- Decimal digits of `n`, most significant first, with explicit fuel.
`fuel` bounds the number of digits; `decDigits (n+1) n` is always exact. -/
def decDigits : Nat → Nat → List Char
  | 0, _ => []
  | fuel + 1, n =>
    if n < 10 then [Nat.digitChar n]
    else decDigits fuel (n / 10) ++ [Nat.digitChar (n % 10)]

/-- Python's `str` on a natural number. -/
def pyStr (n : Nat) : String := ⟨decDigits (n + 1) n⟩

/-- Reads a digit string back to the natural number it denotes. -/
def unStr (l : List Char) : Nat := l.foldl (fun a c => a * 10 + (c.toNat - 48)) 0

theorem unStr_append_digit (l : List Char) (c : Char) :
    unStr (l ++ [c]) = unStr l * 10 + (c.toNat - 48) := by
  simp [unStr, List.foldl_append]

theorem digitChar_val : ∀ n < 10, (Nat.digitChar n).toNat - 48 = n := by decide

theorem unStr_decDigits : ∀ fuel n, n < 10 ^ fuel → unStr (decDigits fuel n) = n := by
  intro fuel
  induction fuel with
  | zero =>
    intro n hn
    interval_cases n
    rfl
  | succ f ih =>
    intro n hn
    by_cases h : n < 10
    · simp [decDigits, h, unStr, digitChar_val n h]
    · have hd : n / 10 < 10 ^ f := by
        rw [Nat.div_lt_iff_lt_mul (by norm_num : 0 < 10)]
        calc n < 10 ^ (f + 1) := hn
          _ = 10 ^ f * 10 := by ring
      rw [decDigits, if_neg h, unStr_append_digit, ih _ hd,
        digitChar_val _ (Nat.mod_lt n (by norm_num))]
      omega

theorem lt_ten_pow : ∀ n : Nat, n < 10 ^ n := by
  intro n
  induction n with
  | zero => decide
  | succ k ih =>
    have : 10 ^ (k + 1) = 10 ^ k * 10 := by ring
    omega

theorem unStr_pyStr (n : Nat) : unStr (pyStr n).data = n := by
  have h : n < 10 ^ (n + 1) := lt_of_lt_of_le (lt_ten_pow n) (Nat.pow_le_pow_right (by norm_num) (Nat.le_succ n))
  simpa [pyStr] using unStr_decDigits (n + 1) n h

theorem pyStr_injective : Function.Injective pyStr := by
  intro a b h
  have : unStr (pyStr a).data = unStr (pyStr b).data := by rw [h]
  rwa [unStr_pyStr, unStr_pyStr] at this

theorem decDigits_ne_nil : ∀ fuel n, decDigits (fuel + 1) n ≠ [] := by
  intro fuel n
  rw [decDigits]
  split
  · simp
  · simp

theorem pyStr_ne_empty (n : Nat) : pyStr n ≠ "" := by
  intro h
  have : decDigits (n + 1) n = [] := congrArg String.data h
  exact decDigits_ne_nil n n this

theorem pyStr_zero : pyStr 0 = "0" := by decide

theorem pyStr_eq_zero_iff (n : Nat) : pyStr n = "0" ↔ n = 0 := by
  constructor
  · intro h
    have := unStr_pyStr n
    rw [h] at this
    simpa [unStr] using this.symm
  · intro h; subst h; exact pyStr_zero

/-! ### Lexicographic comparison of character lists (Python string `<=`) -/

/-- Python's lexicographic `<=` on strings, on their character lists:
compare code points position by position; a proper prefix is smaller. -/
def lexLe : List Char → List Char → Bool
  | [], _ => true
  | _ :: _, [] => false
  | a :: as, b :: bs => if a = b then lexLe as bs else decide (a < b)

theorem lexLe_total : ∀ a b : List Char, lexLe a b = true ∨ lexLe b a = true := by
  intro a
  induction a with
  | nil => intro b; left; rfl
  | cons x xs ih =>
    intro b
    cases b with
    | nil => right; rfl
    | cons y ys =>
      by_cases hxy : x = y
      · subst hxy
        rcases ih ys with h | h
        · left; simpa [lexLe] using h
        · right; simpa [lexLe] using h
      · rcases lt_trichotomy x y with h | h | h
        · left
          simp [lexLe, hxy]
          exact h
        · exact absurd h hxy
        · right
          have hyx : y ≠ x := fun h' => hxy h'.symm
          simp [lexLe, hyx]
          exact h

theorem lexLe_trans :
    ∀ a b c : List Char, lexLe a b = true → lexLe b c = true → lexLe a c = true := by
  intro a
  induction a with
  | nil => intro b c _ _; rfl
  | cons x xs ih =>
    intro b c hab hbc
    cases b with
    | nil => simp [lexLe] at hab
    | cons y ys =>
      cases c with
      | nil => simp [lexLe] at hbc
      | cons z zs =>
        by_cases hxy : x = y <;> by_cases hyz : y = z
        · subst hxy; subst hyz
          simp only [lexLe, if_pos rfl] at hab hbc ⊢
          exact ih ys zs hab hbc
        · subst hxy
          simp only [lexLe, if_pos rfl] at hab
          simpa [lexLe, hyz] using hbc
        · subst hyz
          simpa [lexLe, hxy] using hab
        · have h1 : x < y := by simpa [lexLe, hxy] using hab
          have h2 : y < z := by simpa [lexLe, hyz] using hbc
          have hxz : x < z := lt_trans h1 h2
          have hne : x ≠ z := ne_of_lt hxz
          simp [lexLe, hne]
          exact hxz

/-! ### Naming-convention parser -/

/-- Modelled from the spec: split a filename on the *last* occurrence of the
delimiter character (Python `rsplit(delimiter, 1)`); `none` when the
delimiter does not occur. -/
def rsplitLast (s : List Char) (d : Char) : Option (List Char × List Char) :=
  match s with
  | [] => none
  | c :: rest =>
    match rsplitLast rest d with
    | some (b, r) => some (c :: b, r)
    | none => if c = d then some ([], rest) else none

/-- Modelled from the spec: a remainder is a valid channel suffix when it is a
single alphabetic character (a letter-coded channel such as L or R) or a
non-empty run of decimal digits (a channel index).  The shipped test
`test_file_names` (case InvalidDot, `sin.wave`) shows that a multi-letter
alphabetic remainder is rejected. -/
def validSuffix (r : List Char) : Bool :=
  (r.length == 1 && r.all Char.isAlpha) || (!r.isEmpty && r.all Char.isDigit)

/-- Modelled from the spec: letter-coded channels are reported as their
1-based channel index (the shipped test pins `R` to `"2"`); numeric suffixes
are kept verbatim.  The mapping of letters other than L/R is not observable
in the sources and such letters are kept verbatim. -/
def letterChannel (c : Char) : List Char :=
  if c.toUpper = 'L' then ['1'] else if c.toUpper = 'R' then ['2'] else [c]

/-- Modelled from the spec: the channel token reported for a valid suffix. -/
def channelToken (r : List Char) : List Char :=
  match r with
  | [c] => if c.isAlpha then letterChannel c else [c]
  | _ => r

/-- Modelled from the spec: `NamingParser` — returns `(base, channel token)`;
the token is `[]` (no suffix) when the delimiter is absent or the remainder
after the last delimiter is not a valid channel suffix, in which case the
whole filename is the base. -/
def parseName (s : List Char) (d : Char) : List Char × List Char :=
  match rsplitLast s d with
  | none => (s, [])
  | some (b, r) => if validSuffix r then (b, channelToken r) else (s, [])

theorem rsplitLast_eq_none (d : Char) :
    ∀ s : List Char, rsplitLast s d = none ↔ d ∉ s := by
  intro s
  induction s with
  | nil => simp [rsplitLast]
  | cons c rest ih =>
    rw [rsplitLast]
    cases h : rsplitLast rest d with
    | some p =>
      have : d ∈ rest := by
        by_contra hmem
        rw [(ih).mpr hmem] at h
        exact Option.noConfusion h
      simp [this]
    | none =>
      have hmem : d ∉ rest := (ih).mp h
      by_cases hc : c = d
      · subst hc
        simp
      · simp [hc, hmem, Ne.symm hc]

theorem rsplitLast_eq_some (d : Char) :
    ∀ s b r : List Char, rsplitLast s d = some (b, r) → s = b ++ d :: r ∧ d ∉ r := by
  intro s
  induction s with
  | nil => intro b r h; exact Option.noConfusion h
  | cons c rest ih =>
    intro b r h
    rw [rsplitLast] at h
    cases hr : rsplitLast rest d with
    | some p =>
      obtain ⟨b', r'⟩ := p
      rw [hr] at h
      obtain ⟨hb, hrr⟩ : c :: b' = b ∧ r' = r := by
        constructor <;> · injection h with h'; injection h'
      obtain ⟨hrest, hmem⟩ := ih b' r' hr
      subst hb; subst hrr; subst hrest
      exact ⟨rfl, hmem⟩
    | none =>
      rw [hr] at h
      by_cases hc : c = d
      · subst hc
        rw [if_pos rfl] at h
        obtain ⟨hb, hrr⟩ : ([] : List Char) = b ∧ rest = r := by
          constructor <;> · injection h with h'; injection h'
        subst hb; subst hrr
        exact ⟨rfl, (rsplitLast_eq_none _ rest).mp hr⟩
      · rw [if_neg hc] at h
        exact Option.noConfusion h

/-! ### Data model: decoded files, the filesystem, `AudioFile` -/

/-- Decoded sample data of one file: one list of samples per channel. -/
abbrev FData := List (List Int)

/-- The filesystem: an association list from path to decoded data. -/
abbrev Disk := List (String × FData)

def lookupDisk : Disk → String → Option FData
  | [], _ => none
  | kv :: rest, p => if kv.1 = p then some kv.2 else lookupDisk rest p

def containsPath (d : Disk) (p : String) : Bool :=
  (lookupDisk d p).isSome

def eraseDisk : Disk → String → Disk
  | [], _ => []
  | kv :: rest, p => if kv.1 = p then eraseDisk rest p else kv :: eraseDisk rest p

def writeDisk (d : Disk) (p : String) (f : FData) : Disk :=
  eraseDisk d p ++ [(p, f)]

/-- Modelled from the spec: the `AudioFile` entity of `audio_file_handler.py`
(absent from the shipped sources; only its tests ship).  `file` is the decoded
sample data, `none` when the path failed to open or decode.  `action` is the
one-character action code, `join_files` the pending join peers. -/
structure AudioFile where
  dirname : String
  filename : String
  extension : String
  file : Option FData := none
  action : Char := 'D'
  join_files : List String := []
  deriving DecidableEq, Repr

def filepath (a : AudioFile) : String := a.dirname ++ "/" ++ a.filename ++ a.extension

def rootPath (a : AudioFile) : String := a.dirname ++ "/" ++ a.filename

def filebase (delim : Char) (a : AudioFile) : String :=
  ⟨(parseName a.filename.data delim).1⟩

def channelnum (delim : Char) (a : AudioFile) : String :=
  ⟨(parseName a.filename.data delim).2⟩

/-! ### Signal classification facts

Modelled from the spec (`SignalAnalyzer`): every fact is an `Option`, `none`
for a file that failed to open.  Thresholds are amplitude floors in linear
sample units (the decibel conversion is presentation only). -/

/-- A channel carries no signal when every sample's magnitude is at or below
the floor. -/
def channelSilent (θ : Nat) (ch : List Int) : Bool :=
  ch.all (fun x => x.natAbs ≤ θ)

/-- Silence of a whole file: peak magnitude across all channels at or below
the floor. -/
def silentF (θ : Nat) (f : FData) : Bool :=
  f.all (channelSilent θ)

/-- Modelled from the spec: inter-channel similarity, shallowly embedded as
exact equality of the two channels (the numeric cross-correlation threshold
is a floating-point detail with no observable contract in the sources). -/
def corrF (f : FData) : Bool :=
  match f with
  | [c1, c2] => c1 == c2
  | _ => false

/-- Modelled from the spec: silence flag; `none` when the file failed to
open. -/
def isEmptyFact (θ : Nat) (a : AudioFile) : Option Bool :=
  a.file.map (silentF θ)

/-- Modelled from the spec: correlation flag; `none` when the file failed to
open. -/
def isCorrelatedFact (a : AudioFile) : Option Bool :=
  a.file.map corrF

/-- Modelled from the spec: fake stereo — exactly two channels, not silent,
channels correlated; `none` when the file failed to open. -/
def isFakeStereoFact (θ : Nat) (a : AudioFile) : Option Bool :=
  a.file.map (fun f => f.length == 2 && !silentF θ f && corrF f)

/-- Modelled from the spec: multichannel — more than two channels, or part of
a channel group with more than two members; `none` when the file failed to
open. -/
def isMultichannelFact (groupSize : Nat) (a : AudioFile) : Option Bool :=
  a.file.map (fun f => 2 < f.length || 2 < groupSize)

/-- Modelled from the spec: bitmask of channels that carry signal (used for
partially silent stereo files); `none` when the file failed to open. -/
def validChannelFact (θ : Nat) (a : AudioFile) : Option Nat :=
  a.file.map (fun f =>
    (f.enum.foldl (fun acc ic => acc + if channelSilent θ ic.2 then 0 else 2 ^ ic.1) 0))

/-! ### Action resolution -/

/-- Modelled from the spec: a file is its group's leader exactly when it holds
pending join peers — `FileList._get_join_options` hands the peer list only to
the first member of a group, and followers keep an empty peer list. -/
def isLeader (a : AudioFile) : Bool :=
  !a.join_files.isEmpty

/-- Options consulted by action resolution; a `none` field is an absent key
in the Python options dict. -/
structure ResolveOptions where
  remove : Option Bool := none
  monoize : Option Bool := none
  deriving DecidableEq, Repr

/-- Modelled from the spec: `ActionResolver.resolve` / `default_action` —
first match wins: silent files are removed (unless `remove` is explicitly
false), fake-stereo files are monoized (unless `monoize` is explicitly
false), a file holding pending join peers is joined, anything else is left
alone. -/
def default_action (θ : Nat) (a : AudioFile) (o : ResolveOptions) : Char :=
  if isEmptyFact θ a = some true then
    (if o.remove = some false then 'N' else 'R')
  else if isFakeStereoFact θ a = some true then
    (if o.monoize = some false then 'N' else 'M')
  else if !a.join_files.isEmpty then
    (if isLeader a then 'J' else 'N')
  else 'N'

/-- The display name of each action state (the lookup table pinned by
`test_action`). -/
def displayName (c : Char) : String :=
  if c = 'D' then "Default"
  else if c = 'M' then "Monoize"
  else if c = 'R' then "Remove"
  else if c = 'S' then "Split"
  else if c = 'J' then "Join"
  else "None"

/-! ### Mutation operations (modelled from the spec) -/

/-- Modelled from the spec: `remove(forced)` — a failed-to-load file is inert;
otherwise the file is deleted when it is silent or the caller forces, and the
call refuses (filesystem untouched) when the file is non-silent and unforced. -/
def removeOp (θ : Nat) (a : AudioFile) (forced : Bool) (disk : Disk) : Disk :=
  match a.file with
  | none => disk
  | some f => if silentF θ f || forced then eraseDisk disk (filepath a) else disk

/-- Pointwise average of all channels of a file (Python integer division). -/
def avgChannels (f : FData) : List Int :=
  match f with
  | [] => []
  | c :: rest => (rest.foldl (fun acc ch => List.zipWith (· + ·) acc ch) c).map
      (fun x => x / ((c :: rest).length : Int))

/-- Modelled from the spec: `monoize(channel)` — writes the selected channel
(or the average of all channels) back as the file's only channel; a no-op for
a mono or failed-to-load file. -/
def monoizeOp (a : AudioFile) (channel : Option Nat) (disk : Disk) : Disk :=
  match a.file with
  | none => disk
  | some f =>
    if f.length ≤ 1 then disk
    else
      match channel with
      | some i => writeDisk disk (filepath a) [f.getD i []]
      | none => writeDisk disk (filepath a) [avgChannels f]

/-- Channel tokens written by `split`: L/R for a stereo file, 1..N otherwise. -/
def splitTokens (n : Nat) : List String :=
  if n = 2 then ["L", "R"] else (List.range n).map (fun i => pyStr (i + 1))

/-- Modelled from the spec: `split(delimiter)` — writes one file per channel
named `root<delimiter><token><extension>`, then deletes the original; a no-op
for a mono or failed-to-load file. -/
def splitOp (a : AudioFile) (delim : Char) (disk : Disk) : Disk :=
  match a.file with
  | none => disk
  | some f =>
    if f.length ≤ 1 then disk
    else
      let d1 := ((splitTokens f.length).zip f).foldl
        (fun d tc => writeDisk d (rootPath a ++ delim.toString ++ tc.1 ++ a.extension) [tc.2]) disk
      eraseDisk d1 (filepath a)

inductive JoinErr where
  | notLoaded : JoinErr
  | missingFile (p : String) : JoinErr
  | sizeMismatch : JoinErr
  deriving DecidableEq, Repr

/-- Number of sample frames of a decoded file. -/
def framesOf (f : FData) : Nat :=
  (f.map List.length).foldr max 0

/-- Zero-pad every channel of a file to `L` frames. -/
def padTo (L : Nat) (f : FData) : FData :=
  f.map (fun ch => ch ++ List.replicate (L - ch.length) 0)

/-- The decoded data of all join participants, the caller's first. -/
def joinDatas (selfData : FData) (others : List String) (disk : Disk) : List FData :=
  selfData :: others.filterMap (lookupDisk disk)

/-- The longest participant frame count. -/
def joinFrames (selfData : FData) (others : List String) (disk : Disk) : Nat :=
  ((joinDatas selfData others disk).map framesOf).foldr max 0

/-- The merged multichannel data: all participants' channels concatenated,
each zero-padded to the longest frame count. -/
def joinMerged (selfData : FData) (others : List String) (disk : Disk) : FData :=
  (joinDatas selfData others disk).flatMap (padTo (joinFrames selfData others disk))

/-- Modelled from the spec: `join(others, newfile, remove, forced)` — merges
the caller (as channel 1) with the named sibling files into one multichannel
file.  A failed-to-load caller is inert; a missing participant is reported;
unequal frame counts are refused unless `forced`, in which case shorter files
are zero-padded to the longest length.  On success the merged file is written
at `newfile`, and when `remove` is set every participant is deleted first. -/
def joinOp (a : AudioFile) (others : List String) (newfile : String)
    (remove forced : Bool) (disk : Disk) : Except JoinErr Unit × Disk :=
  match a.file with
  | none => (.error .notLoaded, disk)
  | some selfData =>
    match others.find? (fun p => (lookupDisk disk p).isNone) with
    | some p => (.error (.missingFile p), disk)
    | none =>
      if !forced &&
          ((joinDatas selfData others disk).map framesOf).any
            (fun n => n != framesOf selfData) then
        (.error .sizeMismatch, disk)
      else
        let d1 := if remove then (filepath a :: others).foldl eraseDisk disk else disk
        (.ok (), writeDisk d1 newfile (joinMerged selfData others disk))

/-! ### `proceed` dispatch -/

/-- Options forwarded by `proceed`; `read_only` is the global preview mode. -/
structure POptions where
  read_only : Bool := false
  remove : Option Bool := none
  monoize : Option Bool := none
  forced : Bool := false
  channel : Option Nat := none
  delimiter : Char := '.'
  deriving DecidableEq, Repr

/-- The action `proceed` will execute: a `Default` action is resolved through
`default_action` first, any other action code stands. -/
def resolvedAction (θ : Nat) (a : AudioFile) (o : POptions) : Char :=
  if a.action = 'D' then default_action θ a ⟨o.remove, o.monoize⟩ else a.action

/-- Default destination of a join: the shared base name next to the caller
(`get_newfile_path`). -/
def defaultNewfile (a : AudioFile) (delim : Char) : String :=
  a.dirname ++ "/" ++ filebase delim a ++ a.extension

/-- Modelled from the spec and `test_proceed_read_only`: `proceed(options)` —
resolves the current action, and under global read-only mode reports the
display name of the action it would execute without touching the filesystem
(the shipped test asserts that a resolved Monoize is *not* executed either);
otherwise it dispatches to the matching mutation operation. -/
def proceed (θ : Nat) (a : AudioFile) (o : POptions) (disk : Disk) : String × Disk :=
  let act := resolvedAction θ a o
  if o.read_only then (displayName act, disk)
  else
    match act with
    | 'M' => (displayName act, monoizeOp a o.channel disk)
    | 'R' => (displayName act, removeOp θ a o.forced disk)
    | 'S' => (displayName act, splitOp a o.delimiter disk)
    | 'J' => (displayName act,
        (joinOp a a.join_files (defaultNewfile a o.delimiter) true o.forced disk).2)
    | _ => (displayName act, disk)

/-! ### Join-group detection (`FileList._search_for_join`) -/

/-- The accumulator dictionary of `_search_for_join`: base name to the list of
`(file, channel token)` pairs, in insertion order (Python dicts preserve it). -/
abbrev JDict := List (String × List (AudioFile × String))

def dictFind : JDict → String → Option (List (AudioFile × String))
  | [], _ => none
  | kv :: rest, k => if kv.1 = k then some kv.2 else dictFind rest k

/-- The characters of all keys of `d`, flattened — `_search_for_join` builds
`flat_d = [y for x in d for y in x]`, which iterates the *keys* of the dict
and then the characters of each key. -/
def flatKeyChars (d : JDict) : List Char :=
  d.foldr (fun kv acc => kv.1.data ++ acc) []

/-- One iteration of the loop of `_search_for_join` (`folder_handler.py`
lines 187-200): skip a file with no channel token; skip a file equal to an
element of `flat_d` (those elements are single characters of the key strings,
compared against the file by path); then file the `(file, token)` pair under
its base unless that base already holds the same token. -/
def JStep (delim : Char) (d : JDict) (f : AudioFile) : JDict :=
  if channelnum delim f = "" then d
  else if (flatKeyChars d).any (fun c => filepath f == c.toString) then d
  else
    match dictFind d (filebase delim f) with
    | none => d ++ [(filebase delim f, [(f, channelnum delim f)])]
    | some v =>
      if channelnum delim f ∈ v.map Prod.snd then d
      else d.map (fun kv =>
        if kv.1 = filebase delim f then (kv.1, kv.2 ++ [(f, channelnum delim f)]) else kv)

/-- The sort order of `sorted(v, key=lambda y: y[1])`: Python string
comparison of the channel tokens. -/
def chLe (x y : AudioFile × String) : Prop :=
  lexLe x.2.data y.2.data = true

instance : DecidableRel chLe := fun x y => by
  unfold chLe
  infer_instance

/-- `FileList._search_for_join` (`folder_handler.py` lines 182-205): with at
most one file there are no groups; otherwise fold the loop body over the
files in listing order, keep the bases with more than one member, and sort
each member list by its channel token (Python string order, since
`channelnum` is a string). -/
def searchForJoin (delim : Char) (files : List AudioFile) :
    List (String × List AudioFile) :=
  if files.length ≤ 1 then []
  else
    (((files.foldl (JStep delim) []).filter (fun kv => 1 < kv.2.length)).map
      (fun kv => (kv.1, (List.insertionSort chLe kv.2).map Prod.fst)))

/-! ### Backup destination probing (`FileList.backup`, nested `unique`) -/

/-- The nested `join` helper of `FileList.backup` restricted to the folder
case (`ext=""`): the joined stem plus the increment, except that the
increment `"0"` is dropped. -/
def bcand (stem : String) (i : Nat) : String :=
  stem ++ (if pyStr i = "0" then "" else pyStr i)

/-- The `while os.path.exists(...)` probe of the nested `unique` helper, with
explicit fuel; `uniquePath` supplies fuel `disk.length + 1`, which always
suffices because the candidates are pairwise distinct. -/
def uniqueProbe (disk : List String) (stem : String) : Nat → Nat → String
  | 0, i => bcand stem i
  | fuel + 1, i =>
    if bcand stem i ∈ disk then uniqueProbe disk stem fuel (i + 1) else bcand stem i

/-- `unique(*args, new=True)` of `FileList.backup` (`folder_handler.py`
lines 154-161): probe the candidates for `i = 0, 1, 2, ...` and return the
first one that does not exist; `disk` is the set of existing paths.  The
function only computes the name — nothing is created. -/
def uniquePath (disk : List String) (stem : String) : String :=
  uniqueProbe disk stem (disk.length + 1) 0

/-- The probe order asserted by the claim under test: `name`, `name0`,
`name1`, ... (the claimed sequence, not the implemented one). -/
def claimedCand (stem : String) (i : Nat) : String :=
  match i with
  | 0 => stem
  | j + 1 => stem ++ pyStr j

/-- The claimed probe, for comparison with `uniquePath`. -/
def claimedProbe (disk : List String) (stem : String) : Nat → Nat → String
  | 0, i => claimedCand stem i
  | fuel + 1, i =>
    if claimedCand stem i ∈ disk then claimedProbe disk stem fuel (i + 1)
    else claimedCand stem i

/-- The claimed unique-path computation: first free name in the order `name`,
`name0`, `name1`, ... -/
def claimedUniquePath (disk : List String) (stem : String) : String :=
  claimedProbe disk stem (disk.length + 1) 0

/-! ### `FileList` state (`folder_handler.py`) -/

/-- The mutable state touched by the `folderpath` setter: the stored folder
path and the cached file list. -/
structure FileListState where
  folderpathF : String
  filesF : List AudioFile
  deriving DecidableEq, Repr

/-- The `folderpath` setter (`folder_handler.py` lines 122-126): only a truthy
argument naming an existing path is stored, and storing it resets the cached
file list; `fs` is the `os.path.exists` oracle.  The argument is an
`Option String`: `none` models Python `None`, `some ""` an empty string —
both are falsy. -/
def folderpathSet (fs : String → Bool) (L : FileListState) (p : Option String) :
    FileListState :=
  match p with
  | none => L
  | some s => if s ≠ "" && fs s then ⟨s, []⟩ else L

/-- Modelled from the spec: the lazily cached `files` view — recomputed from
the folder listing when the cache was reset, served from the cache
otherwise (`utils.lazy_property` is not among the shipped sources). -/
def filesOf (listing : String → List AudioFile) (L : FileListState) : List AudioFile :=
  if L.filesF.isEmpty then listing L.folderpathF else L.filesF

/-- `FileList.__len__` (`folder_handler.py` lines 82-83): the number of files,
except that a `FileList` whose folder path is still the empty string reports
length 0. -/
def lenFL (listing : String → List AudioFile) (L : FileListState) : Nat :=
  if L.folderpathF ≠ "" then (filesOf listing L).length else 0

/-! ### Filesystem lemmas -/

theorem lookup_erase_self (d : Disk) (p : String) :
    lookupDisk (eraseDisk d p) p = none := by
  induction d with
  | nil => rfl
  | cons kv rest ih =>
    by_cases h : kv.1 = p
    · simpa [eraseDisk, h] using ih
    · simpa [eraseDisk, lookupDisk, h] using ih

theorem lookup_erase_ne (d : Disk) {p q : String} (h : q ≠ p) :
    lookupDisk (eraseDisk d q) p = lookupDisk d p := by
  induction d with
  | nil => rfl
  | cons kv rest ih =>
    rw [eraseDisk]
    by_cases hk : kv.1 = q
    · have hkp : kv.1 ≠ p := by rw [hk]; exact h
      rw [if_pos hk, ih, lookupDisk, if_neg hkp]
    · rw [if_neg hk, lookupDisk, lookupDisk]
      by_cases hp : kv.1 = p
      · rw [if_pos hp, if_pos hp]
      · rw [if_neg hp, if_neg hp, ih]

theorem lookup_erase_none (d : Disk) {p : String} (q : String)
    (h : lookupDisk d p = none) : lookupDisk (eraseDisk d q) p = none := by
  by_cases hq : q = p
  · subst hq; exact lookup_erase_self d q
  · rw [lookup_erase_ne d hq]; exact h

theorem lookup_write_self (d : Disk) (p : String) (f : FData) :
    lookupDisk (writeDisk d p f) p = some f := by
  have key : ∀ d' : Disk, lookupDisk d' p = none → lookupDisk (d' ++ [(p, f)]) p = some f := by
    intro d'
    induction d' with
    | nil => intro _; simp [lookupDisk]
    | cons kv rest ih =>
      intro h
      rw [lookupDisk] at h
      by_cases hk : kv.1 = p
      · rw [if_pos hk] at h; exact Option.noConfusion h
      · rw [if_neg hk] at h
        rw [List.cons_append, lookupDisk, if_neg hk]
        exact ih h
  exact key (eraseDisk d p) (lookup_erase_self d p)

theorem lookup_write_ne (d : Disk) {p q : String} (f : FData) (h : q ≠ p) :
    lookupDisk (writeDisk d q f) p = lookupDisk d p := by
  have happ : ∀ d' : Disk, lookupDisk (d' ++ [(q, f)]) p = lookupDisk d' p := by
    intro d'
    induction d' with
    | nil => simp [lookupDisk, h]
    | cons kv rest ih =>
      rw [List.cons_append, lookupDisk, lookupDisk]
      by_cases hk : kv.1 = p
      · rw [if_pos hk, if_pos hk]
      · rw [if_neg hk, if_neg hk, ih]
  rw [writeDisk, happ, lookup_erase_ne d h]

theorem lookup_foldl_erase_none (paths : List String) :
    ∀ (d : Disk) (p : String), lookupDisk d p = none →
      lookupDisk (paths.foldl eraseDisk d) p = none := by
  induction paths with
  | nil => intro d p h; exact h
  | cons q rest ih =>
    intro d p h
    exact ih (eraseDisk d q) p (lookup_erase_none d q h)

theorem lookup_foldl_erase_mem (paths : List String) :
    ∀ (d : Disk) (p : String), p ∈ paths →
      lookupDisk (paths.foldl eraseDisk d) p = none := by
  induction paths with
  | nil => intro d p h; cases h
  | cons q rest ih =>
    intro d p h
    rcases List.mem_cons.mp h with h | h
    · subst h
      exact lookup_foldl_erase_none rest (eraseDisk d p) p (lookup_erase_self d p)
    · exact ih (eraseDisk d q) p h

/-! ### Backup candidate lemmas -/

theorem bcand_zero (stem : String) : bcand stem 0 = stem := by
  simp [bcand, pyStr_zero]

theorem bcand_pos (stem : String) {i : Nat} (h : i ≠ 0) :
    bcand stem i = stem ++ pyStr i := by
  rw [bcand, if_neg]
  exact fun hc => h ((pyStr_eq_zero_iff i).mp hc)

theorem string_append_data (a b : String) : (a ++ b).data = a.data ++ b.data :=
  String.data_append a b

theorem string_data_inj {s t : String} (h : s.data = t.data) : s = t :=
  congrArg String.mk h

theorem string_eq_empty_of_data {s : String} (h : s.data = []) : s = "" :=
  string_data_inj h

theorem bcand_injective (stem : String) : Function.Injective (bcand stem) := by
  intro i j h
  by_cases hi : i = 0 <;> by_cases hj : j = 0
  · rw [hi, hj]
  · exfalso
    rw [hi, bcand_zero, bcand_pos stem hj] at h
    have hd := congrArg String.data h
    rw [string_append_data] at hd
    have hlen := congrArg List.length hd
    rw [List.length_append] at hlen
    have hnil : (pyStr j).data = [] := by
      have : (pyStr j).data.length = 0 := by omega
      exact List.length_eq_zero.mp this
    exact pyStr_ne_empty j (string_eq_empty_of_data hnil)
  · exfalso
    rw [hj, bcand_zero, bcand_pos stem hi] at h
    have hd := congrArg String.data h.symm
    rw [string_append_data] at hd
    have hlen := congrArg List.length hd
    rw [List.length_append] at hlen
    have hnil : (pyStr i).data = [] := by
      have : (pyStr i).data.length = 0 := by omega
      exact List.length_eq_zero.mp this
    exact pyStr_ne_empty i (string_eq_empty_of_data hnil)
  · rw [bcand_pos stem hi, bcand_pos stem hj] at h
    have hd := congrArg String.data h
    rw [string_append_data, string_append_data] at hd
    exact pyStr_injective (string_data_inj (List.append_cancel_left hd))

/-- Among the first `n + 1` candidates over a list of `n` existing paths, at
least one candidate is free. -/
theorem bcand_exists_free (disk : List String) (stem : String) :
    ∃ j ≤ disk.length, bcand stem j ∉ disk := by
  by_contra hall
  push_neg at hall
  have hsub : (List.range (disk.length + 1)).map (bcand stem) ⊆ disk := by
    intro x hx
    rcases List.mem_map.mp hx with ⟨j, hj, rfl⟩
    have hj' : j ≤ disk.length := by
      have := List.mem_range.mp hj
      omega
    exact hall j hj'
  have hnodup : ((List.range (disk.length + 1)).map (bcand stem)).Nodup :=
    (List.nodup_range _).map (bcand_injective stem)
  have hle := (List.subperm_of_subset hnodup hsub).length_le
  rw [List.length_map, List.length_range] at hle
  omega

/-- What the probe returns when some candidate in its budget is free: the
first free candidate at or after the start index. -/
theorem uniqueProbe_spec (disk : List String) (stem : String) :
    ∀ (fuel i : Nat), (∃ j, i ≤ j ∧ j < i + fuel + 1 ∧ bcand stem j ∉ disk) →
      ∃ j, uniqueProbe disk stem fuel i = bcand stem j ∧ i ≤ j ∧ bcand stem j ∉ disk ∧
        ∀ k, i ≤ k → k < j → bcand stem k ∈ disk := by
  intro fuel
  induction fuel with
  | zero =>
    intro i h
    obtain ⟨j, hij, hlt, hfree⟩ := h
    have : j = i := by omega
    subst this
    exact ⟨j, rfl, le_refl j, hfree, fun k hk1 hk2 => absurd (lt_of_le_of_lt hk1 hk2) (lt_irrefl j)⟩
  | succ f ih =>
    intro i h
    by_cases hin : bcand stem i ∈ disk
    · have hex : ∃ j, i + 1 ≤ j ∧ j < (i + 1) + f + 1 ∧ bcand stem j ∉ disk := by
        obtain ⟨j, hij, hlt, hfree⟩ := h
        refine ⟨j, ?_, by omega, hfree⟩
        rcases Nat.eq_or_lt_of_le hij with rfl | h'
        · exact absurd hin hfree
        · omega
      obtain ⟨j, hpj, hij, hfree, hmin⟩ := ih (i + 1) hex
      refine ⟨j, ?_, by omega, hfree, ?_⟩
      · rw [uniqueProbe, if_pos hin]; exact hpj
      · intro k hk1 hk2
        rcases Nat.eq_or_lt_of_le hk1 with rfl | h'
        · exact hin
        · exact hmin k h' hk2
    · exact ⟨i, by rw [uniqueProbe, if_neg hin], le_refl i, hin,
        fun k hk1 hk2 => absurd (lt_of_le_of_lt hk1 hk2) (lt_irrefl i)⟩

/-! ### Invariants of `_search_for_join` -/

/-- Invariant of the accumulator dictionary: keys are distinct, and every
entry holds pairs whose file parses to that entry's base, whose recorded
token is the file's channel token, and whose token is non-empty. -/
def JInv (delim : Char) (d : JDict) : Prop :=
  (d.map Prod.fst).Nodup ∧
    ∀ kv ∈ d, ∀ x ∈ kv.2,
      filebase delim x.1 = kv.1 ∧ x.2 = channelnum delim x.1 ∧ x.2 ≠ ""

theorem dictFind_none_keys {d : JDict} {k : String} (h : dictFind d k = none) :
    ∀ kv ∈ d, kv.1 ≠ k := by
  induction d with
  | nil => intro kv hkv; cases hkv
  | cons kv0 rest ih =>
    intro kv hkv
    rw [dictFind] at h
    by_cases hk : kv0.1 = k
    · rw [if_pos hk] at h; exact Option.noConfusion h
    · rw [if_neg hk] at h
      rcases List.mem_cons.mp hkv with rfl | hkv'
      · exact hk
      · exact ih h kv hkv'

theorem jinv_step (delim : Char) (d : JDict) (f : AudioFile) (h : JInv delim d) :
    JInv delim (JStep delim d f) := by
  obtain ⟨hkeys, hmem⟩ := h
  rw [JStep]
  by_cases h1 : channelnum delim f = ""
  · rw [if_pos h1]; exact ⟨hkeys, hmem⟩
  rw [if_neg h1]
  by_cases h2 : ((flatKeyChars d).any (fun c => filepath f == c.toString)) = true
  · rw [if_pos h2]; exact ⟨hkeys, hmem⟩
  rw [if_neg h2]
  cases hf : dictFind d (filebase delim f) with
  | none =>
    constructor
    · rw [List.map_append]
      rw [List.nodup_append]
      refine ⟨hkeys, List.nodup_singleton _, ?_⟩
      intro k hk hk'
      have hkb : k = filebase delim f := by simpa using hk'
      rcases List.mem_map.mp hk with ⟨kv, hkv, rfl⟩
      exact dictFind_none_keys hf kv hkv hkb
    · intro kv hkv x hx
      rcases List.mem_append.mp hkv with hkv' | hkv'
      · exact hmem kv hkv' x hx
      · have : kv = (filebase delim f, [(f, channelnum delim f)]) := by simpa using hkv'
        subst this
        have : x = (f, channelnum delim f) := by simpa using hx
        subst this
        exact ⟨rfl, rfl, h1⟩
  | some v =>
    show JInv delim
      (if channelnum delim f ∈ v.map Prod.snd then d
       else d.map (fun kv =>
         if kv.1 = filebase delim f then (kv.1, kv.2 ++ [(f, channelnum delim f)]) else kv))
    by_cases h3 : channelnum delim f ∈ v.map Prod.snd
    · rw [if_pos h3]; exact ⟨hkeys, hmem⟩
    rw [if_neg h3]
    constructor
    · have : (d.map (fun kv =>
          if kv.1 = filebase delim f then (kv.1, kv.2 ++ [(f, channelnum delim f)]) else kv)).map
          Prod.fst = d.map Prod.fst := by
        rw [List.map_map]
        apply List.map_congr_left
        intro kv _
        by_cases hk : kv.1 = filebase delim f
        · simp [hk]
        · simp [hk]
      rw [this]
      exact hkeys
    · intro kv' hkv' x hx
      rcases List.mem_map.mp hkv' with ⟨kv, hkv, rfl⟩
      by_cases hk : kv.1 = filebase delim f
      · rw [if_pos hk] at hx ⊢
        simp only at hx
        rcases List.mem_append.mp hx with hx' | hx'
        · exact hmem kv hkv x hx'
        · have : x = (f, channelnum delim f) := by simpa using hx'
          subst this
          exact ⟨hk.symm, rfl, h1⟩
      · rw [if_neg hk] at hx ⊢
        exact hmem kv hkv x hx

theorem jinv_fold (delim : Char) (files : List AudioFile) :
    ∀ d : JDict, JInv delim d → JInv delim (files.foldl (JStep delim) d) := by
  induction files with
  | nil => intro d h; exact h
  | cons f rest ih =>
    intro d h
    exact ih (JStep delim d f) (jinv_step delim d f h)

theorem jinv_nil (delim : Char) : JInv delim [] :=
  ⟨List.nodup_nil, fun kv hkv => absurd hkv (List.not_mem_nil kv)⟩

/-- Generic: in a list of pairs with distinct keys, two members with the same
key are the same element. -/
theorem nodup_keys_eq {α β : Type} {l : List (α × β)} (h : (l.map Prod.fst).Nodup)
    {a b : α × β} (ha : a ∈ l) (hb : b ∈ l) (hab : a.1 = b.1) : a = b := by
  induction l with
  | nil => cases ha
  | cons kv rest ih =>
    rw [List.map_cons, List.nodup_cons] at h
    rcases List.mem_cons.mp ha with rfl | ha' <;> rcases List.mem_cons.mp hb with h' | hb'
    · rw [h']
    · exact absurd (List.mem_map.mpr ⟨b, hb', hab.symm⟩) h.1
    · subst h'
      exact absurd (List.mem_map.mpr ⟨a, ha', hab⟩) h.1
    · exact ih h.2 ha' hb'

/-- The groups returned by `searchForJoin` are exactly the large-enough
accumulator entries with their members sorted by channel token. -/
theorem searchForJoin_mem {delim : Char} {files : List AudioFile}
    {g : String × List AudioFile} (hg : g ∈ searchForJoin delim files) :
    ∃ kv ∈ (files.foldl (JStep delim) []).filter (fun kv => 1 < kv.2.length),
      g = (kv.1, (List.insertionSort chLe kv.2).map Prod.fst) := by
  rw [searchForJoin] at hg
  by_cases hlen : files.length ≤ 1
  · rw [if_pos hlen] at hg; cases hg
  · rw [if_neg hlen] at hg
    rcases List.mem_map.mp hg with ⟨kv, hkv, rfl⟩
    exact ⟨kv, hkv, rfl⟩

/-! ### Claim C1 — action resolution order -/

/-- The decision list exactly as the claim states it: silent → Remove unless
`remove` is explicitly false (then None); else fake-stereo → Monoize unless
`monoize` is explicitly false (then None); else pending join peers → Join for
the group's leader, None for a follower; else None. -/
def resolveSpecC1 (θ : Nat) (a : AudioFile) (o : ResolveOptions) : Char :=
  if isEmptyFact θ a = some true ∧ o.remove ≠ some false then 'R'
  else if isEmptyFact θ a = some true ∧ o.remove = some false then 'N'
  else if isFakeStereoFact θ a = some true ∧ o.monoize ≠ some false then 'M'
  else if isFakeStereoFact θ a = some true ∧ o.monoize = some false then 'N'
  else if a.join_files ≠ [] ∧ isLeader a = true then 'J'
  else if a.join_files ≠ [] ∧ ¬ isLeader a = true then 'N'
  else 'N'

/-- C1: action resolution evaluates its rules in fixed priority order with
first match winning — silent files resolve to Remove (None when `remove` is
explicitly false) before fake-stereo files resolve to Monoize (None when
`monoize` is explicitly false) before join leaders resolve to Join, and
everything else resolves to None; in particular Remove takes priority over
Monoize, which takes priority over Join. -/
theorem C1_resolution_first_match_order (θ : Nat) (a : AudioFile) (o : ResolveOptions) :
    default_action θ a o = resolveSpecC1 θ a o := by
  by_cases h1 : isEmptyFact θ a = some true <;>
    by_cases h2 : o.remove = some false <;>
      by_cases h3 : isFakeStereoFact θ a = some true <;>
        by_cases h4 : o.monoize = some false <;>
          by_cases h5 : a.join_files = [] <;>
            simp [default_action, resolveSpecC1, isLeader, List.isEmpty_iff,
              h1, h2, h3, h4, h5]

/-! ### Claim C3 — read-only `proceed` -/

/-- Stereo test file with a pending Monoize action; its two channels differ,
so actually monoizing it would change the filesystem. -/
def demoMonoFile : AudioFile :=
  { dirname := "d", filename := "s", extension := ".wav",
    file := some [[1, 1], [3, 3]], action := 'M' }

def demoMonoDisk : Disk := [(filepath demoMonoFile, [[1, 1], [3, 3]])]

/-- C3 counterexample: the claim exempts a resolved Monoize from the
read-only preview short-circuit and has it "actually executed even in
read-only mode"; but on a stereo file whose monoization would change the
disk, `proceed` under read-only mode returns the name "Monoize" and leaves
the disk untouched (exactly what `test_proceed_read_only` asserts via its
mock: `monoize` is not called). -/
theorem C3_monoize_not_exempt_cex :
    proceed 0 demoMonoFile { read_only := true } demoMonoDisk = ("Monoize", demoMonoDisk) ∧
      monoizeOp demoMonoFile none demoMonoDisk ≠ demoMonoDisk := by
  constructor
  · decide
  · decide

/-- C3 amended: under global read-only mode `proceed` reports the display
name of the action it would execute and performs no filesystem mutation for
*any* resolved action — Monoize included; there is no exemption. -/
theorem C3_read_only_preview (θ : Nat) (a : AudioFile) (o : POptions) (disk : Disk) :
    proceed θ a { o with read_only := true } disk =
      (displayName (resolvedAction θ a { o with read_only := true }), disk) := rfl

/-! ### Claim C6 — `remove` -/

/-- C6: for a loaded file that exists on disk, `remove(forced=False)` deletes
it if and only if it is silent; a non-silent file is refused and the disk is
left untouched; `remove(forced=True)` deletes unconditionally. -/
theorem C6_remove_guard (θ : Nat) (a : AudioFile) (sd : FData) (disk : Disk)
    (hload : a.file = some sd) (hdisk : containsPath disk (filepath a) = true) :
    (containsPath (removeOp θ a false disk) (filepath a) = false ↔ silentF θ sd = true) ∧
      (silentF θ sd = false → removeOp θ a false disk = disk) ∧
      containsPath (removeOp θ a true disk) (filepath a) = false := by
  have hred : ∀ b : Bool, removeOp θ a b disk =
      if silentF θ sd || b then eraseDisk disk (filepath a) else disk := by
    intro b
    simp only [removeOp, hload]
  refine ⟨⟨?_, ?_⟩, ?_, ?_⟩
  · intro h
    cases hv : silentF θ sd
    · rw [hred, hv] at h
      simp only [Bool.false_or, Bool.or_false] at h
      rw [if_neg (by simp)] at h
      rw [h] at hdisk
      exact Bool.noConfusion hdisk
    · rfl
  · intro hs
    rw [hred, hs]
    simp [containsPath, lookup_erase_self]
  · intro hs
    rw [hred, hs]
    simp
  · rw [hred]
    simp [containsPath, lookup_erase_self]

def demoSilentFile : AudioFile :=
  { dirname := "d", filename := "z", extension := ".wav", file := some [[0, 0]] }

/-- C6 witness: the guard theorem applied to a silent file sitting on disk. -/
theorem C6_remove_guard_witness :
    (containsPath (removeOp 0 demoSilentFile false [(filepath demoSilentFile, [[0, 0]])])
        (filepath demoSilentFile) = false ↔ silentF 0 [[0, 0]] = true) ∧
      (silentF 0 [[0, 0]] = false →
        removeOp 0 demoSilentFile false [(filepath demoSilentFile, [[0, 0]])] =
          [(filepath demoSilentFile, [[0, 0]])]) ∧
      containsPath (removeOp 0 demoSilentFile true [(filepath demoSilentFile, [[0, 0]])])
        (filepath demoSilentFile) = false :=
  C6_remove_guard 0 demoSilentFile [[0, 0]] [(filepath demoSilentFile, [[0, 0]])]
    rfl (by decide)

/-! ### Claim C10 — the `folderpath` setter -/

/-- C10: assigning to `folderpath` mutates the state only when the argument
is truthy and names an existing path — then the stored path becomes the
argument and the cached file list is reset; otherwise the state is unchanged;
and a `FileList` whose folder path is still `""` reports length 0. -/
theorem C10_folderpath_setter (fs : String → Bool) (L : FileListState) (p : Option String) :
    (∀ s, p = some s → s ≠ "" → fs s = true → folderpathSet fs L p = ⟨s, []⟩) ∧
      (p = none → folderpathSet fs L p = L) ∧
      (∀ s, p = some s → (s = "" ∨ fs s = false) → folderpathSet fs L p = L) ∧
      (∀ listing, L.folderpathF = "" → lenFL listing L = 0) := by
  refine ⟨?_, ?_, ?_, ?_⟩
  · intro s hp hs hfs
    subst hp
    rw [folderpathSet]
    rw [if_pos]
    rw [Bool.and_eq_true]
    exact ⟨decide_eq_true hs, hfs⟩
  · intro hp; subst hp; rfl
  · intro s hp hcase
    subst hp
    rw [folderpathSet]
    rw [if_neg]
    rw [Bool.and_eq_true]
    rcases hcase with h | h
    · intro hc
      exact absurd h (by simpa using hc.1)
    · intro hc
      rw [h] at hc
      exact Bool.noConfusion hc.2
  · intro listing h
    rw [lenFL, if_neg]
    simpa using h

/-- C10 witness: the setter applied to a fresh list with a truthy existing
path, plus the length-0 report of the empty-path state. -/
theorem C10_folderpath_setter_witness :
    folderpathSet (fun s => s == "d") ⟨"", [demoSilentFile]⟩ (some "d") = ⟨"d", []⟩ ∧
      lenFL (fun _ => []) ⟨"", [demoSilentFile]⟩ = 0 :=
  ⟨(C10_folderpath_setter (fun s => s == "d") ⟨"", [demoSilentFile]⟩ (some "d")).1 "d"
      rfl (by decide) (by decide),
    (C10_folderpath_setter (fun s => s == "d") ⟨"", [demoSilentFile]⟩ (some "d")).2.2.2
      (fun _ => []) rfl⟩

/-! ### Claim C9 — failed-to-load files are inert unknowns -/

/-- C9: for a file that failed to open or decode, every classification fact
(silence, correlation, fake-stereo, multichannel, valid-channel) reads as the
distinct unknown value `none` rather than `false`, and every mutation
operation is a no-op on the filesystem. -/
theorem C9_unknown_facts_inert (θ groupSize : Nat) (a : AudioFile) (disk : Disk)
    (channel : Option Nat) (delim : Char) (others : List String) (newfile : String)
    (rm forced : Bool) (h : a.file = none) :
    isEmptyFact θ a = none ∧ isCorrelatedFact a = none ∧
      isFakeStereoFact θ a = none ∧ isMultichannelFact groupSize a = none ∧
      validChannelFact θ a = none ∧
      removeOp θ a forced disk = disk ∧ monoizeOp a channel disk = disk ∧
      splitOp a delim disk = disk ∧
      joinOp a others newfile rm forced disk = (.error .notLoaded, disk) :=
  ⟨by simp [isEmptyFact, h], by simp [isCorrelatedFact, h],
    by simp [isFakeStereoFact, h], by simp [isMultichannelFact, h],
    by simp [validChannelFact, h], by simp [removeOp, h], by simp [monoizeOp, h],
    by simp [splitOp, h], by simp [joinOp, h]⟩

def demoBrokenFile : AudioFile :=
  { dirname := "d", filename := "error", extension := "", file := none }

/-- C9 witness: the inertness theorem applied to a file that failed to
open, over a one-file disk. -/
theorem C9_unknown_facts_inert_witness :
    isEmptyFact 0 demoBrokenFile = none ∧ isCorrelatedFact demoBrokenFile = none ∧
      isFakeStereoFact 0 demoBrokenFile = none ∧
      isMultichannelFact 0 demoBrokenFile = none ∧
      validChannelFact 0 demoBrokenFile = none ∧
      removeOp 0 demoBrokenFile true [("q", [[7]])] = [("q", [[7]])] ∧
      monoizeOp demoBrokenFile none [("q", [[7]])] = [("q", [[7]])] ∧
      splitOp demoBrokenFile '.' [("q", [[7]])] = [("q", [[7]])] ∧
      joinOp demoBrokenFile ["q"] "n" true true [("q", [[7]])] =
        (.error .notLoaded, [("q", [[7]])]) :=
  C9_unknown_facts_inert 0 0 demoBrokenFile [("q", [[7]])] none '.' ["q"] "n" true true rfl

/-! ### Claim C2 — join refuses mismatched frame counts unless forced -/

theorem le_foldr_max (l : List Nat) : ∀ x ∈ l, x ≤ l.foldr max 0 := by
  induction l with
  | nil => intro x hx; cases hx
  | cons y rest ih =>
    intro x hx
    rcases List.mem_cons.mp hx with rfl | hx'
    · exact le_max_left x (rest.foldr max 0)
    · exact le_trans (ih x hx') (le_max_right y (rest.foldr max 0))

/-- C2: when the join participants' frame counts are not all equal to the
caller's, `join` with `forced=False` refuses with a size mismatch and leaves
the filesystem untouched (any `remove` setting); the same call with
`forced=True` succeeds, deletes every participant (with `remove=True`, the
default), and writes at `newfile` the merged file, every channel of which is
zero-padded to the longest participant frame count. -/
theorem C2_join_size_mismatch (a : AudioFile) (sd : FData) (others : List String)
    (newfile : String) (disk : Disk)
    (hload : a.file = some sd)
    (hothers : ∀ p ∈ others, (lookupDisk disk p).isSome = true)
    (hmis : ∃ p ∈ others, ∃ fd, lookupDisk disk p = some fd ∧ framesOf fd ≠ framesOf sd)
    (hnew : newfile ∉ filepath a :: others) :
    (∀ rm : Bool, joinOp a others newfile rm false disk = (.error .sizeMismatch, disk)) ∧
      (joinOp a others newfile true true disk).1 = .ok () ∧
      (∀ p ∈ filepath a :: others,
        lookupDisk (joinOp a others newfile true true disk).2 p = none) ∧
      lookupDisk (joinOp a others newfile true true disk).2 newfile =
        some (joinMerged sd others disk) ∧
      (∀ ch ∈ joinMerged sd others disk, ch.length = joinFrames sd others disk) := by
  have hfind : others.find? (fun p => (lookupDisk disk p).isNone) = none := by
    rw [List.find?_eq_none]
    intro p hp hcontra
    rw [Option.isNone_iff_eq_none] at hcontra
    have := hothers p hp
    rw [hcontra] at this
    exact Bool.noConfusion this
  have hany : (((joinDatas sd others disk).map framesOf).any
      (fun n => n != framesOf sd)) = true := by
    rw [List.any_eq_true]
    obtain ⟨p, hp, fd, hfd, hne⟩ := hmis
    refine ⟨framesOf fd, ?_, ?_⟩
    · exact List.mem_map.mpr ⟨fd,
        List.mem_cons.mpr (Or.inr (List.mem_filterMap.mpr ⟨p, hp, hfd⟩)), rfl⟩
    · simpa using hne
  have hrefuse : ∀ rm : Bool, joinOp a others newfile rm false disk =
      (.error .sizeMismatch, disk) := by
    intro rm
    simp only [joinOp, hload, hfind, hany, Bool.not_false, Bool.true_and, if_true]
  have hexec : joinOp a others newfile true true disk =
      (.ok (), writeDisk ((filepath a :: others).foldl eraseDisk disk) newfile
        (joinMerged sd others disk)) := by
    simp only [joinOp, hload, hfind, Bool.not_true, Bool.false_and, Bool.false_eq_true,
      if_false, if_true]
  refine ⟨hrefuse, ?_, ?_, ?_, ?_⟩
  · rw [hexec]
  · intro p hp
    rw [hexec]
    have hpn : newfile ≠ p := fun hc => hnew (hc ▸ hp)
    rw [lookup_write_ne _ _ hpn]
    exact lookup_foldl_erase_mem _ disk p hp
  · rw [hexec]
    exact lookup_write_self _ _ _
  · intro ch hch
    rcases List.mem_flatMap.mp hch with ⟨fd, hfd, hch'⟩
    rcases List.mem_map.mp hch' with ⟨ch0, hch0, rfl⟩
    have h1 : ch0.length ≤ framesOf fd :=
      le_foldr_max _ _ (List.mem_map.mpr ⟨ch0, hch0, rfl⟩)
    have h2 : framesOf fd ≤ joinFrames sd others disk :=
      le_foldr_max _ _ (List.mem_map.mpr ⟨fd, hfd, rfl⟩)
    rw [List.length_append, List.length_replicate]
    omega

def demoJoinSelf : AudioFile :=
  { dirname := "d", filename := "sin-m", extension := ".wav", file := some [[1, 2]] }

def demoJoinDisk : Disk := [("d/sin-m.wav", [[1, 2]]), ("d/empty.wav", [[5]])]

/-- C2 witness: a two-frame file joined with a one-frame file — refused
unforced with both files intact, merged with padding and both sources
deleted when forced. -/
theorem C2_join_size_mismatch_witness :
    (∀ rm : Bool, joinOp demoJoinSelf ["d/empty.wav"] "d/new.wav" rm false demoJoinDisk =
      (.error .sizeMismatch, demoJoinDisk)) ∧
      (joinOp demoJoinSelf ["d/empty.wav"] "d/new.wav" true true demoJoinDisk).1 = .ok () ∧
      (∀ p ∈ filepath demoJoinSelf :: ["d/empty.wav"],
        lookupDisk (joinOp demoJoinSelf ["d/empty.wav"] "d/new.wav" true true demoJoinDisk).2
          p = none) ∧
      lookupDisk (joinOp demoJoinSelf ["d/empty.wav"] "d/new.wav" true true demoJoinDisk).2
        "d/new.wav" = some (joinMerged [[1, 2]] ["d/empty.wav"] demoJoinDisk) ∧
      (∀ ch ∈ joinMerged [[1, 2]] ["d/empty.wav"] demoJoinDisk,
        ch.length = joinFrames [[1, 2]] ["d/empty.wav"] demoJoinDisk) :=
  C2_join_size_mismatch demoJoinSelf [[1, 2]] ["d/empty.wav"] "d/new.wav" demoJoinDisk
    rfl (by decide) ⟨"d/empty.wav", by decide, [[5]], by decide, by decide⟩ (by decide)

/-! ### Claim C8 — naming parse -/

/-- C8 counterexample: for `sin.wave` with delimiter `.` the remainder after
the last delimiter is `wave` — entirely alphabetic and non-empty, so the
claim's acceptance condition holds — yet the parse rejects it and the whole
filename becomes the base with no channel suffix (as the shipped test
`test_file_names`, case InvalidDot, asserts). -/
theorem C8_alphabetic_suffix_cex :
    rsplitLast "sin.wave".data '.' = some ("sin".data, "wave".data) ∧
      "wave".data.all Char.isAlpha = true ∧ "wave".data ≠ [] ∧
      parseName "sin.wave".data '.' = ("sin.wave".data, []) := by
  refine ⟨by decide, by decide, by decide, by decide⟩

/-- C8 amended: the parse splits on the last delimiter occurrence only (the
base carries every earlier occurrence, the remainder none), and the remainder
is accepted as a channel suffix if and only if it is a *single* alphabetic
character or entirely numeric; any other remainder — including an empty one
or a multi-letter extension-like one — leaves the whole filename as the base
with no suffix, as does an absent delimiter. -/
theorem C8_parse_last_split (s : List Char) (d : Char) :
    (rsplitLast s d = none → d ∉ s ∧ parseName s d = (s, [])) ∧
      (∀ b r, rsplitLast s d = some (b, r) →
        s = b ++ d :: r ∧ d ∉ r ∧
          (validSuffix r = true ↔
            ((r.length = 1 ∧ ∀ c ∈ r, c.isAlpha = true) ∨
              (r ≠ [] ∧ ∀ c ∈ r, c.isDigit = true))) ∧
          (validSuffix r = true → parseName s d = (b, channelToken r)) ∧
          (validSuffix r = false → parseName s d = (s, []))) := by
  constructor
  · intro h
    exact ⟨(rsplitLast_eq_none d s).mp h, by rw [parseName, h]⟩
  · intro b r h
    obtain ⟨hs, hmem⟩ := rsplitLast_eq_some d s b r h
    have hpn : parseName s d =
        if validSuffix r = true then (b, channelToken r) else (s, []) := by
      simp only [parseName, h]
    refine ⟨hs, hmem, ?_, ?_, ?_⟩
    · simp [validSuffix, List.all_eq_true, List.isEmpty_iff]
    · intro hv
      rw [hpn, if_pos hv]
    · intro hv
      rw [hpn, if_neg (by rw [hv]; exact Bool.noConfusion)]

/-- C8 witness: the amended parse theorem applied to `take.10` — split at the
last dot, numeric suffix accepted. -/
theorem C8_parse_last_split_witness :
    "take.10".data = "take".data ++ '.' :: "10".data ∧
      parseName "take.10".data '.' = ("take".data, channelToken "10".data) := by
  have h := (C8_parse_last_split "take.10".data '.').2 "take".data "10".data (by decide)
  exact ⟨h.1, h.2.2.2.1 (by decide)⟩

/-! ### Claim C7 — backup destination probing -/

/-- C7 counterexample: with `bak` existing and `bak0` free, the claim's probe
order (`bak`, `bak0`, `bak1`, ...) would return `bak0`, but the code skips
the `0` increment and returns `bak1`; and a second call on the unchanged
filesystem returns the very same path, not a distinct one. -/
theorem C7_probe_sequence_cex :
    uniquePath ["p/bak"] "p/bak" = "p/bak1" ∧
      claimedUniquePath ["p/bak"] "p/bak" = "p/bak0" ∧
      ("p/bak0" : String) ∉ (["p/bak"] : List String) ∧
      uniquePath ["p/bak"] "p/bak" = uniquePath ["p/bak"] "p/bak" := by
  refine ⟨by decide, by decide, by decide, rfl⟩

/-- C7 amended: the probe tries the candidates `name`, `name1`, `name2`, ...
in order (the `0` increment is rendered as the bare name) and returns the
first candidate that does not exist at the time of the call, creating
nothing; in particular the result never names an existing path, and a second
call returns a distinct path only once the first result has been created —
on an unchanged filesystem both calls return the same path. -/
theorem C7_first_free_candidate (disk : List String) (stem : String) :
    uniquePath disk stem ∉ disk ∧
      (∃ j, uniquePath disk stem = bcand stem j ∧ ∀ k < j, bcand stem k ∈ disk) ∧
      uniquePath (uniquePath disk stem :: disk) stem ≠ uniquePath disk stem := by
  have main : ∀ dk : List String, uniquePath dk stem ∉ dk ∧
      ∃ j, uniquePath dk stem = bcand stem j ∧ ∀ k < j, bcand stem k ∈ dk := by
    intro dk
    obtain ⟨j0, hj0le, hj0free⟩ := bcand_exists_free dk stem
    have hex : ∃ j, 0 ≤ j ∧ j < 0 + (dk.length + 1) + 1 ∧ bcand stem j ∉ dk :=
      ⟨j0, Nat.zero_le _, by omega, hj0free⟩
    obtain ⟨j, hpj, _, hfree, hmin⟩ := uniqueProbe_spec dk stem (dk.length + 1) 0 hex
    rw [uniquePath, hpj]
    exact ⟨hfree, j, rfl, fun k hk => hmin k (Nat.zero_le k) hk⟩
  obtain ⟨h1, h2⟩ := main disk
  have h3 := (main (uniquePath disk stem :: disk)).1
  refine ⟨h1, h2, fun hc => ?_⟩
  rw [hc] at h3
  exact h3 (List.mem_cons_self _ _)

/-! ### Claims C4 and C5 — join groups -/

def demoF2 : AudioFile :=
  { dirname := "d", filename := "a.2", extension := ".wav" }

def demoF10 : AudioFile :=
  { dirname := "d", filename := "a.10", extension := ".wav" }

/-- C4 counterexample: two files of one base with numeric channel tokens `2`
and `10`.  `channelnum` is a *string*, so the sort key of group detection
compares lexicographically even for numeric tokens: the group comes back
ordered `10` before `2`, not numerically ascending as the claim states. -/
theorem C4_numeric_order_cex :
    channelnum '.' demoF2 = "2" ∧ channelnum '.' demoF10 = "10" ∧
      searchForJoin '.' [demoF2, demoF10] = [("a", [demoF10, demoF2])] ∧
      ¬ List.Pairwise
        (fun f f' => unStr (channelnum '.' f).data ≤ unStr (channelnum '.' f').data)
        [demoF10, demoF2] := by
  refine ⟨by decide, by decide, by decide, by decide⟩

/-- C4 amended: within every produced join group the members are in ascending
order of channel token under lexicographic *string* comparison (the tokens
are strings; letter tokens have been rewritten to digit strings by
`channelnum`); numeric tokens are compared as strings too, so e.g. `10`
sorts before `2`. -/
theorem C4_group_order_lexicographic (delim : Char) (files : List AudioFile)
    (g : String × List AudioFile) (hg : g ∈ searchForJoin delim files) :
    List.Pairwise
      (fun f f' => lexLe (channelnum delim f).data (channelnum delim f').data = true)
      g.2 := by
  obtain ⟨kv, hkv, rfl⟩ := searchForJoin_mem hg
  obtain ⟨hkeys, hmem⟩ := jinv_fold delim files [] (jinv_nil delim)
  have hkv' : kv ∈ files.foldl (JStep delim) [] := (List.mem_filter.mp hkv).1
  haveI : IsTotal (AudioFile × String) chLe := ⟨fun x y => lexLe_total x.2.data y.2.data⟩
  haveI : IsTrans (AudioFile × String) chLe :=
    ⟨fun x y z => lexLe_trans x.2.data y.2.data z.2.data⟩
  have hsorted : List.Pairwise chLe (List.insertionSort chLe kv.2) :=
    List.sorted_insertionSort chLe kv.2
  show List.Pairwise _ ((List.insertionSort chLe kv.2).map Prod.fst)
  rw [List.pairwise_map]
  refine hsorted.imp_of_mem ?_
  intro x y hx hy hchle
  have hx' : x ∈ kv.2 := (List.mem_insertionSort chLe).mp hx
  have hy' : y ∈ kv.2 := (List.mem_insertionSort chLe).mp hy
  have hxch := (hmem kv hkv' x hx').2.1
  have hych := (hmem kv hkv' y hy').2.1
  rw [← hxch, ← hych]
  exact hchle

/-- C4 witness: the order theorem applied to the concrete two-file folder —
its single group is lexicographically ordered. -/
theorem C4_group_order_lexicographic_witness :
    List.Pairwise
      (fun f f' => lexLe (channelnum '.' f).data (channelnum '.' f').data = true)
      (("a", [demoF10, demoF2]) : String × List AudioFile).2 :=
  C4_group_order_lexicographic '.' [demoF2, demoF10] ("a", [demoF10, demoF2]) (by decide)

/-- C5: every group produced by join detection has at least two members (no
singleton groups), contains no file whose naming parse yields no valid
channel suffix, and no file belongs to two distinct groups (detection is one
pass over the listing, first claim wins). -/
theorem C5_group_invariants (delim : Char) (files : List AudioFile) :
    (∀ g ∈ searchForJoin delim files, 2 ≤ g.2.length) ∧
      (∀ g ∈ searchForJoin delim files, ∀ f ∈ g.2, channelnum delim f ≠ "") ∧
      (∀ g1 g2 : String × List AudioFile, g1 ∈ searchForJoin delim files →
        g2 ∈ searchForJoin delim files → ∀ f : AudioFile, f ∈ g1.2 → f ∈ g2.2 →
          g1 = g2) := by
  obtain ⟨hkeys, hmem⟩ := jinv_fold delim files [] (jinv_nil delim)
  refine ⟨?_, ?_, ?_⟩
  · intro g hg
    obtain ⟨kv, hkv, rfl⟩ := searchForJoin_mem hg
    have hlen : 1 < kv.2.length := by simpa using (List.mem_filter.mp hkv).2
    have heq : ((List.insertionSort chLe kv.2).map Prod.fst).length = kv.2.length := by
      rw [List.length_map, (List.perm_insertionSort chLe kv.2).length_eq]
    show 2 ≤ ((List.insertionSort chLe kv.2).map Prod.fst).length
    omega
  · intro g hg f hf
    obtain ⟨kv, hkv, rfl⟩ := searchForJoin_mem hg
    have hkv' : kv ∈ files.foldl (JStep delim) [] := (List.mem_filter.mp hkv).1
    rcases List.mem_map.mp hf with ⟨x, hx, rfl⟩
    have hx' : x ∈ kv.2 := (List.mem_insertionSort chLe).mp hx
    have h := hmem kv hkv' x hx'
    rw [← h.2.1]
    exact h.2.2
  · intro g1 g2 hg1 hg2 f hf1 hf2
    obtain ⟨kv1, hkv1, rfl⟩ := searchForJoin_mem hg1
    obtain ⟨kv2, hkv2, rfl⟩ := searchForJoin_mem hg2
    have hkv1' : kv1 ∈ files.foldl (JStep delim) [] := (List.mem_filter.mp hkv1).1
    have hkv2' : kv2 ∈ files.foldl (JStep delim) [] := (List.mem_filter.mp hkv2).1
    rcases List.mem_map.mp hf1 with ⟨x1, hx1, hx1f⟩
    rcases List.mem_map.mp hf2 with ⟨x2, hx2, hx2f⟩
    have hx1' : x1 ∈ kv1.2 := (List.mem_insertionSort chLe).mp hx1
    have hx2' : x2 ∈ kv2.2 := (List.mem_insertionSort chLe).mp hx2
    have h1 := (hmem kv1 hkv1' x1 hx1').1
    have h2 := (hmem kv2 hkv2' x2 hx2').1
    have hkeq : kv1.1 = kv2.1 := by rw [← h1, ← h2, hx1f, hx2f]
    have hkv12 : kv1 = kv2 := nodup_keys_eq hkeys hkv1' hkv2' hkeq
    rw [hkv12]

/-- C5 witness: the invariants instantiated on the concrete two-file folder. -/
theorem C5_group_invariants_witness :
    2 ≤ (("a", [demoF10, demoF2]) : String × List AudioFile).2.length ∧
      channelnum '.' demoF10 ≠ "" :=
  ⟨(C5_group_invariants '.' [demoF2, demoF10]).1 ("a", [demoF10, demoF2]) (by decide),
    (C5_group_invariants '.' [demoF2, demoF10]).2.1 ("a", [demoF10, demoF2]) (by decide)
      demoF10 (by decide)⟩

end MPPM
